import Mathlib

/-!
Shallow embedding of `src/mclick.c`, a Linux uinput mouse-click utility.

Modelling conventions:
* Machine `int` values are modelled as `Int`; `std::stoi`'s range check against
  the 32-bit limits is explicit (out-of-range parses fail, as the thrown
  `out_of_range` exception is caught or terminates the process).
* OS interactions (open/ioctl/write on `/dev/uinput`, writes of input events,
  close) are recorded in a trace of `Action`s; their success or failure is an
  oracle `Os` supplied as input.  Event timestamps (`gettimeofday`) are not part
  of the model: the spec compares event sequences modulo timestamps.
* `exit(EXIT_FAILURE)` inside a helper is modelled by short-circuiting the
  caller (`Option`/sum results); an uncaught exception (`std::terminate`, e.g.
  `stoi` overflow in `get_count`) is modelled as the `none` result of `mainRun`.
* Sleeps are modelled as exact: `sleep_ms(t)` contributes `t` to elapsed time.
-/

namespace Mclick

/-- `EV_SYN` event type from `linux/input-event-codes.h`. -/
def EV_SYN : Nat := 0

/-- `EV_KEY` event type from `linux/input-event-codes.h`. -/
def EV_KEY : Nat := 1

/-- `SYN_REPORT` code. -/
def SYN_REPORT : Nat := 0

/-- `BTN_LEFT` key code (0x110). -/
def BTN_LEFT : Nat := 272

/-- `BTN_RIGHT` key code (0x111). -/
def BTN_RIGHT : Nat := 273

/-- `EXIT_SUCCESS`. -/
def EXIT_SUCCESS : Nat := 0

/-- `EXIT_FAILURE`. -/
def EXIT_FAILURE : Nat := 1

/-- `DEFAULT_HOLD_MS` from mclick.c line 21. -/
def DEFAULT_HOLD_MS : Int := 120

/-- `DEFAULT_CLICK_SPEED_MS` from mclick.c line 22. -/
def DEFAULT_CLICK_SPEED_MS : Int := 120

/-- `DEFAULT_CLICK_COUNT` from mclick.c line 23. -/
def DEFAULT_CLICK_COUNT : Int := 1

/-- One `struct input_event`, minus the timestamp (events are compared modulo
timestamps). -/
structure InputEvent where
  type : Nat
  code : Nat
  value : Int
deriving DecidableEq

/-- Observable actions of the process at the OS boundary. -/
inductive Action where
  /-- `open("/dev/uinput", ...)` was attempted. -/
  | openDev
  /-- the `ioctl(UI_SET_EVBIT/UI_SET_KEYBIT, ...)` capability calls. -/
  | setCapability
  /-- `write(fd, &dev, sizeof dev)` of the `uinput_user_dev` descriptor. -/
  | writeDeviceInfo
  /-- `ioctl(fd, UI_DEV_CREATE)`. -/
  | createDev
  /-- a successful `write` of one `input_event`. -/
  | writeEvent (e : InputEvent)
  /-- a diagnostic printed to `stderr`. -/
  | logError
  /-- `sleep_ms(ms)`. -/
  | sleep (ms : Int)
  /-- `close(fd)`. -/
  | closeDev
  /-- `print_help(...)` output. -/
  | printHelp
deriving DecidableEq

/-- Oracle telling which OS calls succeed.  Event writes are indexed by the
order in which the process attempts them. -/
structure Os where
  openOk : Bool
  capOk : Bool
  writeDevOk : Bool
  createOk : Bool
  writeEvOk : Nat → Bool

/-- The oracle under which every OS call succeeds. -/
def allOk : Os := ⟨true, true, true, true, fun _ => true⟩

/-- Replace only the event-write behaviour of an oracle. -/
def withWrites (os : Os) (f : Nat → Bool) : Os :=
  { os with writeEvOk := f }

/-! ### String parsing (`std::stoi` and `parse_duration`, mclick.c 151-168) -/

/-- C `isspace` on the default locale. -/
def isSpaceByte (c : Char) : Bool :=
  decide (c.toNat = 32) || (decide (9 ≤ c.toNat) && decide (c.toNat ≤ 13))

/-- A decimal digit `'0'..'9'` — C `isdigit`, `std::stoi`'s digit test, and the
character set of `find_first_not_of("0123456789")`. -/
def isDigitChar (c : Char) : Bool :=
  decide (48 ≤ c.toNat) && decide (c.toNat ≤ 57)

/-- The digit-reading phase of `std::stoi`: skip whitespace, read an optional
sign, then the maximal run of digits; fails (`invalid_argument`) when that run
is empty.  Returns the sign and the digit run. -/
def stoiBody (s : String) : Option (Bool × List Char) :=
  match s.data.dropWhile isSpaceByte with
  | [] => none
  | c :: rest =>
    let p : Bool × List Char :=
      if c = '-' then (true, rest)
      else if c = '+' then (false, rest)
      else (false, c :: rest)
    let digits := p.2.takeWhile isDigitChar
    if digits.isEmpty then none else some (p.1, digits)

/-- Numeric value of a run of decimal digits. -/
def digitsToNat (ds : List Char) : Nat :=
  ds.foldl (fun a c => 10 * a + (c.toNat - 48)) 0

/-- `std::stoi`: `none` models a thrown `invalid_argument` or `out_of_range`
exception (the value must fit in a 32-bit `int`). -/
def stoi (s : String) : Option Int :=
  match stoiBody s with
  | none => none
  | some (neg, ds) =>
    let v : Int := (if neg then (-1 : Int) else 1) * (digitsToNat ds : Int)
    if v < -2147483648 ∨ 2147483647 < v then none else some v

/-- `parse_duration` (mclick.c 151-168): `stoi` the string, reject non-positive
values, and multiply by 1000 when the character at the first non-digit position
(`find_first_not_of("0123456789")`) is `'s'`.  `none` models
`exit(EXIT_FAILURE)` after the `[ERROR] Invalid duration` diagnostic. -/
def parse_duration (s : String) : Option Int :=
  match stoi s with
  | none => none
  | some v =>
    if v ≤ 0 then none
    else
      match s.data.findIdx? (fun c => !isDigitChar c) with
      | none => some v
      | some pos => if s.data.getD pos ' ' = 's' then some (v * 1000) else some v

/-- First character of a `std::string`; `operator[]` at the size position
yields the null character. -/
def firstChar (s : String) : Char := s.data.headD (Char.ofNat 0)

/-- `get_count` (mclick.c 130-136): value of the first argument (from
`argv[0]` on) whose first character is a digit, else `DEFAULT_CLICK_COUNT`.
`none` models the uncaught `out_of_range` from `stoi` (process aborts). -/
def get_count (argv : List String) : Option Int :=
  match argv.find? (fun a => isDigitChar (firstChar a)) with
  | some a => stoi a
  | none => some DEFAULT_CLICK_COUNT

/-- `get_duration` (mclick.c 142-149): parse the argument following the first
occurrence of `option` that has a successor; 0 when there is none. -/
def get_duration (argv : List String) (option : String) : Option Int :=
  match argv.findIdx? (fun a => a = option) with
  | some j =>
    if j + 1 < argv.length then parse_duration (argv.getD (j + 1) "")
    else some 0
  | none => some 0

/-! ### Device session (`setup_uinput_device`, mclick.c 36-80) -/

/-- `setup_uinput_device`: open `/dev/uinput`, register key capabilities, write
the device descriptor, create the device.  Returns the trace of actions and
whether a handle was obtained; `false` models `exit(EXIT_FAILURE)` after the
diagnostic.  On open failure there is no handle to close; on every later
failure the handle is closed before exiting. -/
def setup_uinput_device (os : Os) : List Action × Bool :=
  if !os.openOk then ([Action.openDev, Action.logError], false)
  else if !os.capOk then
    ([Action.openDev, Action.setCapability, Action.logError, Action.closeDev], false)
  else if !os.writeDevOk then
    ([Action.openDev, Action.setCapability, Action.writeDeviceInfo,
      Action.logError, Action.closeDev], false)
  else if !os.createOk then
    ([Action.openDev, Action.setCapability, Action.writeDeviceInfo,
      Action.createDev, Action.logError, Action.closeDev], false)
  else
    ([Action.openDev, Action.setCapability, Action.writeDeviceInfo,
      Action.createDev], true)

/-! ### Event emission (`send_input_event` / `send_event`, mclick.c 82-113) -/

/-- `send_input_event` (mclick.c 82-108): attempt event write number `idx`.
On a failed `write` the function prints a diagnostic and returns — it does not
abort.  Either way the next write gets the next index. -/
def send_input_event (os : Os) (idx : Nat) (ty code : Nat) (value : Int) :
    List Action × Nat :=
  if os.writeEvOk idx then ([Action.writeEvent ⟨ty, code, value⟩], idx + 1)
  else ([Action.logError], idx + 1)

/-- `send_event` (mclick.c 110-113): a key-class event for the button followed
by a `SYN_REPORT` synchronization event. -/
def send_event (os : Os) (idx : Nat) (button : Nat) (action : Int) :
    List Action × Nat :=
  let p := send_input_event os idx EV_KEY button action
  let q := send_input_event os p.2 EV_SYN SYN_REPORT 0
  (p.1 ++ q.1, q.2)

/-! ### Click driver (`perform_clicks` / `perform_timed_clicks`, 170-200) -/

/-- The loop of `perform_clicks` with `n` iterations left: press, sleep the
hold time, release, and sleep the inter-click delay unless this was the last
iteration (`i < count - 1` in the source is `0 < n` here). -/
def perform_clicks_aux (os : Os) (button : Nat) (hold speed : Int) :
    Nat → Nat → List Action × Nat
  | 0, idx => ([], idx)
  | Nat.succ n, idx =>
    let p := send_event os idx button 1
    let r := send_event os p.2 button 0
    let tail := perform_clicks_aux os button hold speed n r.2
    (p.1 ++ Action.sleep hold :: r.1 ++
      (if 0 < n then Action.sleep speed :: tail.1 else tail.1), tail.2)

/-- `perform_clicks` (mclick.c 170-179); a non-positive `count` runs zero
iterations, as in the C `for` loop. -/
def perform_clicks (os : Os) (button : Nat) (count hold speed : Int)
    (idx : Nat) : List Action × Nat :=
  perform_clicks_aux os button hold speed count.toNat idx

/-- The loop of `perform_timed_clicks`: while the elapsed time is below the
budget, run one press/hold/release cycle and then sleep the inter-click delay
(the delay is slept after every cycle, the last included).  `fuel` bounds the
number of iterations so the function is total; `none` models an execution the
fuel cannot cover (the C loop would not have terminated within `fuel` cycles).
The returned `Int` is the final modeled elapsed time. -/
def perform_timed_aux (os : Os) (button : Nat) (dur hold speed : Int) :
    Nat → Int → Nat → Option (List Action × Int × Nat)
  | 0, elapsed, idx =>
    if dur ≤ elapsed then some ([], elapsed, idx) else none
  | Nat.succ fuel, elapsed, idx =>
    if dur ≤ elapsed then some ([], elapsed, idx)
    else
      let p := send_event os idx button 1
      let r := send_event os p.2 button 0
      match perform_timed_aux os button dur hold speed fuel
          (elapsed + hold + speed) r.2 with
      | none => none
      | some (tail, e, idx3) =>
        some (p.1 ++ Action.sleep hold :: r.1 ++ Action.sleep speed :: tail,
          e, idx3)

/-- `perform_timed_clicks` (mclick.c 181-200), starting at elapsed time 0.
`dur.toNat` cycles of fuel suffice whenever `hold + speed ≥ 1`. -/
def perform_timed_clicks (os : Os) (button : Nat) (dur hold speed : Int)
    (idx : Nat) : Option (List Action × Int × Nat) :=
  perform_timed_aux os button dur hold speed dur.toNat 0 idx

/-! ### Command line front end (`main`, mclick.c 213-267) -/

/-- The `BUTTONS` map of `main`. -/
def BUTTONS (c : Char) : Option Nat :=
  if c = 'l' then some BTN_LEFT else if c = 'r' then some BTN_RIGHT else none

/-- Outcome of `main`'s argument processing, before the device is touched. -/
inductive FrontEnd where
  /-- `argc < 2`, `-h` or `--help` as first argument: help text, failure exit. -/
  | help
  /-- first argument is not a known button: diagnostic, failure exit. -/
  | badButton
  /-- uncaught exception (`stoi` overflow in `get_count`): process aborts. -/
  | crash
  /-- a `parse_duration` call failed: diagnostic, failure exit. -/
  | badDuration
  /-- a complete request: button code, count, hold, click speed, timed
  duration, debug flag. -/
  | request (button : Nat) (count hold speed dur : Int) (dbg : Bool)
deriving DecidableEq

/-- The option loop of `main` (mclick.c 233-249), scanning from index 2.
`-h`/`--hold` and `-cs`/`--clickspeed` consume their value (`argv[++i]`);
`-t`/`--time` re-scans the whole argv through `get_duration`.  `none` models
`exit(EXIT_FAILURE)` raised inside `parse_duration`. -/
def optionLoop (argv : List String) :
    Nat → Nat → Int → Int → Int → Bool → Option (Int × Int × Int × Bool)
  | 0, _, h, sp, d, dbg => some (h, sp, d, dbg)
  | Nat.succ fuel, i, h, sp, d, dbg =>
    if i < argv.length then
      let arg := argv.getD i ""
      if arg = "-d" ∨ arg = "--debug" then
        optionLoop argv fuel (i + 1) h sp d true
      else if (arg = "-h" ∨ arg = "--hold") ∧ i + 1 < argv.length then
        match parse_duration (argv.getD (i + 1) "") with
        | none => none
        | some v => optionLoop argv fuel (i + 2) v sp d dbg
      else if (arg = "-cs" ∨ arg = "--clickspeed") ∧ i + 1 < argv.length then
        match parse_duration (argv.getD (i + 1) "") with
        | none => none
        | some v => optionLoop argv fuel (i + 2) h v d dbg
      else if (arg = "-t" ∨ arg = "--time") ∧ i + 1 < argv.length then
        match get_duration argv arg with
        | none => none
        | some v => optionLoop argv fuel (i + 1) h sp v dbg
      else optionLoop argv fuel (i + 1) h sp d dbg
    else some (h, sp, d, dbg)

/-- Argument processing of `main` (mclick.c 213-249), in source order: help
check, button lookup, `get_count`, then the option loop. -/
def parseInvocation (argv : List String) : FrontEnd :=
  if argv.length < 2 ∨ argv.getD 1 "" = "-h" ∨ argv.getD 1 "" = "--help" then
    FrontEnd.help
  else
    match BUTTONS (firstChar (argv.getD 1 "")) with
    | none => FrontEnd.badButton
    | some b =>
      match get_count argv with
      | none => FrontEnd.crash
      | some c =>
        match optionLoop argv argv.length 2 DEFAULT_HOLD_MS
            DEFAULT_CLICK_SPEED_MS 0 false with
        | none => FrontEnd.badDuration
        | some (h, sp, d, dbg) => FrontEnd.request b c h sp d dbg

/-- `main` (mclick.c 213-267): parse the invocation, acquire the device, run
the driver (timed when a positive `-t` duration was given, else bounded), and
close the handle.  The result is the trace of OS actions and the exit status;
`none` models an abnormal execution (uncaught exception, or a timed loop the
fuel cannot cover). -/
def mainRun (os : Os) (argv : List String) : Option (List Action × Nat) :=
  match parseInvocation argv with
  | FrontEnd.help => some ([Action.printHelp], EXIT_FAILURE)
  | FrontEnd.badButton => some ([Action.logError], EXIT_FAILURE)
  | FrontEnd.crash => none
  | FrontEnd.badDuration => some ([Action.logError], EXIT_FAILURE)
  | FrontEnd.request b c h sp d _ =>
    let st := setup_uinput_device os
    if st.2 then
      if 0 < d then
        match perform_timed_clicks os b d h sp 0 with
        | none => none
        | some (tr, _, _) =>
          some (st.1 ++ tr ++ [Action.closeDev], EXIT_SUCCESS)
      else
        some (st.1 ++ (perform_clicks os b c h sp 0).1 ++ [Action.closeDev],
          EXIT_SUCCESS)
    else some (st.1, EXIT_FAILURE)

/-! ### Trace observations -/

/-- Is this action a successful write of a key-class press event? -/
def isPressEvent (a : Action) : Bool :=
  match a with
  | Action.writeEvent e => decide (e.type = EV_KEY) && decide (e.value = 1)
  | _ => false

/-- Is this action a successful write of a key-class release event? -/
def isReleaseEvent (a : Action) : Bool :=
  match a with
  | Action.writeEvent e => decide (e.type = EV_KEY) && decide (e.value = 0)
  | _ => false

/-- Number of press events in a trace. -/
def pressCount (tr : List Action) : Nat := tr.countP isPressEvent

/-- Number of release events in a trace. -/
def releaseCount (tr : List Action) : Nat := tr.countP isReleaseEvent

/-- The subsequence of key-class events of a trace, in order. -/
def keyEvents (tr : List Action) : List InputEvent :=
  tr.filterMap fun a =>
    match a with
    | Action.writeEvent e => if e.type = EV_KEY then some e else none
    | _ => none

/-- Total modeled sleep time of a trace. -/
def sleepTotal (tr : List Action) : Int :=
  (tr.map fun a => match a with | Action.sleep ms => ms | _ => 0).sum

/-- Modelled from the spec: the event/sleep sequence of one click cycle,
"press (button, value=1) followed by a synchronization marker", the hold
sleep, then "release (button, value=0) followed by a synchronization
marker". -/
def cycleTrace (button : Nat) (hold : Int) : List Action :=
  [Action.writeEvent ⟨EV_KEY, button, 1⟩,
   Action.writeEvent ⟨EV_SYN, SYN_REPORT, 0⟩,
   Action.sleep hold,
   Action.writeEvent ⟨EV_KEY, button, 0⟩,
   Action.writeEvent ⟨EV_SYN, SYN_REPORT, 0⟩]

/-- Modelled from the spec: the full bounded-count sequence for `n` cycles,
with the inter-click delay slept between consecutive cycles only ("If not the
last iteration, sleep for inter-click-delay milliseconds"). -/
def boundedTrace (button : Nat) (hold speed : Int) : Nat → List Action
  | 0 => []
  | Nat.succ n =>
    cycleTrace button hold ++
      (if 0 < n then Action.sleep speed :: boundedTrace button hold speed n
       else boundedTrace button hold speed n)

/-! ### Helper lemmas -/

theorem send_input_event_ok (os : Os) (idx ty code : Nat) (v : Int)
    (h : os.writeEvOk idx = true) :
    send_input_event os idx ty code v =
      ([Action.writeEvent ⟨ty, code, v⟩], idx + 1) := by
  simp [send_input_event, h]

theorem send_event_allOk (idx b : Nat) (a : Int) :
    send_event allOk idx b a =
      ([Action.writeEvent ⟨EV_KEY, b, a⟩,
        Action.writeEvent ⟨EV_SYN, SYN_REPORT, 0⟩], idx + 2) := by
  simp [send_event, send_input_event, allOk]

theorem perform_clicks_aux_allOk (b : Nat) (h d : Int) :
    ∀ n idx, perform_clicks_aux allOk b h d n idx =
      (boundedTrace b h d n, idx + 4 * n) := by
  intro n
  induction n with
  | zero => intro idx; simp [perform_clicks_aux, boundedTrace]
  | succ m ih =>
    intro idx
    simp only [perform_clicks_aux, send_event_allOk, ih, boundedTrace,
      cycleTrace]
    rw [Prod.mk.injEq]
    refine ⟨by simp, by omega⟩

theorem pressCount_cycleTrace (b : Nat) (h : Int) :
    pressCount (cycleTrace b h) = 1 := by
  simp [pressCount, cycleTrace, isPressEvent, EV_KEY, EV_SYN, List.countP_cons,
    List.countP_nil]

theorem releaseCount_cycleTrace (b : Nat) (h : Int) :
    releaseCount (cycleTrace b h) = 1 := by
  simp [releaseCount, cycleTrace, isReleaseEvent, EV_KEY, EV_SYN,
    List.countP_cons, List.countP_nil]

theorem pressCount_boundedTrace (b : Nat) (h d : Int) :
    ∀ n, pressCount (boundedTrace b h d n) = n := by
  intro n
  induction n with
  | zero => simp [boundedTrace, pressCount]
  | succ m ih =>
    have hc := pressCount_cycleTrace b h
    rcases Nat.eq_zero_or_pos m with hm | hm <;>
      simp [boundedTrace, hm, pressCount, List.countP_append,
        List.countP_cons, isPressEvent] at hc ih ⊢ <;> omega

theorem releaseCount_boundedTrace (b : Nat) (h d : Int) :
    ∀ n, releaseCount (boundedTrace b h d n) = n := by
  intro n
  induction n with
  | zero => simp [boundedTrace, releaseCount]
  | succ m ih =>
    have hc := releaseCount_cycleTrace b h
    rcases Nat.eq_zero_or_pos m with hm | hm <;>
      simp [boundedTrace, hm, releaseCount, List.countP_append,
        List.countP_cons, isReleaseEvent] at hc ih ⊢ <;> omega

theorem keyEvents_cycleTrace (b : Nat) (h : Int) :
    keyEvents (cycleTrace b h) =
      [⟨EV_KEY, b, 1⟩, ⟨EV_KEY, b, 0⟩] := by
  simp [keyEvents, cycleTrace, EV_KEY, EV_SYN]

theorem boundedTrace_one (b : Nat) (h d : Int) :
    boundedTrace b h d 1 = cycleTrace b h := by
  rw [boundedTrace]
  simp [boundedTrace]

theorem keyEvents_append (t1 t2 : List Action) :
    keyEvents (t1 ++ t2) = keyEvents t1 ++ keyEvents t2 := by
  simp [keyEvents]

theorem keyEvents_cons_sleep (d : Int) (l : List Action) :
    keyEvents (Action.sleep d :: l) = keyEvents l := by
  simp [keyEvents]

theorem keyEvents_boundedTrace (b : Nat) (h d : Int) :
    ∀ n, keyEvents (boundedTrace b h d n) =
      (List.replicate n
        ([⟨EV_KEY, b, 1⟩, ⟨EV_KEY, b, 0⟩] : List InputEvent)).flatten := by
  intro n
  induction n with
  | zero => simp [boundedTrace, keyEvents]
  | succ m ih =>
    rcases Nat.eq_zero_or_pos m with hm | hm
    · subst hm
      rw [boundedTrace_one, keyEvents_cycleTrace]
      simp
    · simp only [boundedTrace, if_pos hm]
      rw [keyEvents_append, keyEvents_cycleTrace, keyEvents_cons_sleep, ih,
        List.replicate_succ, List.flatten_cons]

theorem sleepTotal_append (t1 t2 : List Action) :
    sleepTotal (t1 ++ t2) = sleepTotal t1 + sleepTotal t2 := by
  simp [sleepTotal]

theorem sleepTotal_cons_sleep (d : Int) (l : List Action) :
    sleepTotal (Action.sleep d :: l) = d + sleepTotal l := by
  simp [sleepTotal]

theorem sleepTotal_cycleTrace (b : Nat) (h : Int) :
    sleepTotal (cycleTrace b h) = h := by
  simp [sleepTotal, cycleTrace]

theorem sleepTotal_boundedTrace (b : Nat) (h d : Int) :
    ∀ n, sleepTotal (boundedTrace b h d (n + 1)) =
      (n + 1 : Int) * h + (n : Int) * d := by
  intro n
  induction n with
  | zero =>
    rw [show (0 : Nat) + 1 = 1 from rfl, boundedTrace_one, sleepTotal_cycleTrace]
    ring
  | succ m ih =>
    have hstep : boundedTrace b h d (m + 1 + 1) =
        cycleTrace b h ++ (Action.sleep d :: boundedTrace b h d (m + 1)) := by
      conv_lhs => rw [boundedTrace]
      rw [if_pos (Nat.succ_pos m)]
    rw [hstep, sleepTotal_append, sleepTotal_cycleTrace, sleepTotal_cons_sleep,
      ih]
    push_cast
    ring

theorem sleepTotal_cons_event (e : InputEvent) (l : List Action) :
    sleepTotal (Action.writeEvent e :: l) = sleepTotal l := by
  simp [sleepTotal]

theorem perform_timed_aux_spec (b : Nat) (dur hold speed : Int) :
    ∀ (fuel : Nat) (elapsed : Int) (idx : Nat),
      dur ≤ elapsed + (fuel : Int) * (hold + speed) →
      ∃ tr e idx2,
        perform_timed_aux allOk b dur hold speed fuel elapsed idx =
          some (tr, e, idx2) ∧
        dur ≤ e ∧ (e = elapsed ∨ e < dur + (hold + speed)) ∧
        e = elapsed + sleepTotal tr ∧
        pressCount tr = releaseCount tr ∧
        (elapsed < dur → 1 ≤ pressCount tr) := by
  intro fuel
  induction fuel with
  | zero =>
    intro elapsed idx hb
    simp only [Nat.cast_zero, zero_mul, add_zero] at hb
    exact ⟨[], elapsed, idx, by simp [perform_timed_aux, if_pos hb],
      hb, Or.inl rfl, by simp [sleepTotal], rfl, fun hlt => absurd hb (by omega)⟩
  | succ f ih =>
    intro elapsed idx hb
    by_cases hd : dur ≤ elapsed
    · exact ⟨[], elapsed, idx, by simp [perform_timed_aux, if_pos hd],
        hd, Or.inl rfl, by simp [sleepTotal], rfl, fun hlt => absurd hd (by omega)⟩
    · push_neg at hd
      have hb' : dur ≤ (elapsed + hold + speed) + (f : Int) * (hold + speed) := by
        push_cast at hb
        nlinarith
      obtain ⟨tail, e, idx3, heq, he1, he2, he3, he4, he5⟩ :=
        ih (elapsed + hold + speed) (idx + 4) hb'
      refine ⟨Action.writeEvent ⟨EV_KEY, b, 1⟩ ::
          Action.writeEvent ⟨EV_SYN, SYN_REPORT, 0⟩ ::
          Action.sleep hold ::
          Action.writeEvent ⟨EV_KEY, b, 0⟩ ::
          Action.writeEvent ⟨EV_SYN, SYN_REPORT, 0⟩ ::
          Action.sleep speed :: tail, e, idx3, ?_, he1, ?_, ?_, ?_, ?_⟩
      · simp only [perform_timed_aux, if_neg (by omega : ¬ dur ≤ elapsed),
          send_event_allOk]
        rw [show idx + 2 + 2 = idx + 4 from rfl, heq]
        simp
      · rcases he2 with h | h
        · exact Or.inr (by omega)
        · exact Or.inr h
      · rw [sleepTotal_cons_event, sleepTotal_cons_event, sleepTotal_cons_sleep,
          sleepTotal_cons_event, sleepTotal_cons_event, sleepTotal_cons_sleep]
        omega
      · simp only [pressCount, releaseCount, List.countP_cons] at he4 ⊢
        simp [isPressEvent, isReleaseEvent, EV_KEY, EV_SYN] at he4 ⊢
        omega
      · intro _
        simp only [pressCount, List.countP_cons]
        simp [isPressEvent, EV_KEY, EV_SYN]

/-! ### Claim theorems -/

/-- C1: a bounded-count run with `N ≥ 1` repetitions, hold `H` and inter-click
delay `D` emits exactly `N` press and `N` release events, with the key events
strictly alternating press, release, press, release, … (each press is followed
by its matching release before the next press), the whole trace being `N`
cycles with the delay slept between consecutive cycles only, and the total
modeled sleep time is `N*H + (N-1)*D`. -/
theorem bounded_run_profile (b : Nat) (H D : Int) (N : Nat) (hN : 1 ≤ N) :
    (perform_clicks allOk b (N : Int) H D 0).1 = boundedTrace b H D N ∧
    pressCount (perform_clicks allOk b (N : Int) H D 0).1 = N ∧
    releaseCount (perform_clicks allOk b (N : Int) H D 0).1 = N ∧
    keyEvents (perform_clicks allOk b (N : Int) H D 0).1 =
      (List.replicate N
        ([⟨EV_KEY, b, 1⟩, ⟨EV_KEY, b, 0⟩] : List InputEvent)).flatten ∧
    sleepTotal (perform_clicks allOk b (N : Int) H D 0).1 =
      (N : Int) * H + ((N : Int) - 1) * D := by
  have htr : (perform_clicks allOk b (N : Int) H D 0).1 = boundedTrace b H D N := by
    rw [perform_clicks, Int.toNat_natCast, perform_clicks_aux_allOk]
  obtain ⟨m, rfl⟩ : ∃ m, N = m + 1 :=
    ⟨N - 1, (Nat.succ_pred_eq_of_pos hN).symm⟩
  refine ⟨htr, ?_, ?_, ?_, ?_⟩
  · rw [htr, pressCount_boundedTrace]
  · rw [htr, releaseCount_boundedTrace]
  · rw [htr, keyEvents_boundedTrace]
  · rw [htr, sleepTotal_boundedTrace]
    push_cast
    ring

/-- Witness for C1 at the spec's own example: left button, count 3, hold 50,
delay 100. -/
theorem bounded_run_profile_witness :
    (perform_clicks allOk 272 ((3 : Nat) : Int) 50 100 0).1 =
      boundedTrace 272 50 100 3 ∧
    pressCount (perform_clicks allOk 272 ((3 : Nat) : Int) 50 100 0).1 = 3 ∧
    releaseCount (perform_clicks allOk 272 ((3 : Nat) : Int) 50 100 0).1 = 3 ∧
    keyEvents (perform_clicks allOk 272 ((3 : Nat) : Int) 50 100 0).1 =
      (List.replicate 3
        ([⟨EV_KEY, 272, 1⟩, ⟨EV_KEY, 272, 0⟩] : List InputEvent)).flatten ∧
    sleepTotal (perform_clicks allOk 272 ((3 : Nat) : Int) 50 100 0).1 =
      ((3 : Nat) : Int) * 50 + (((3 : Nat) : Int) - 1) * 100 :=
  bounded_run_profile 272 50 100 3 (by norm_num)

/-- C2: a timed run with positive budget `B`, hold `H` and delay `D` always
performs at least one full press/release cycle (even when `B < H + D`), and
terminates with total modeled elapsed time (equal to the total modeled sleep
time, since the elapsed check happens only at cycle boundaries) at least `B`
and strictly below `B + (H + D)`. -/
theorem timed_run_profile (b : Nat) (B H D : Int)
    (hB : 1 ≤ B) (hH : 1 ≤ H) (hD : 1 ≤ D) :
    ∃ tr e idx2,
      perform_timed_clicks allOk b B H D 0 = some (tr, e, idx2) ∧
      1 ≤ pressCount tr ∧ 1 ≤ releaseCount tr ∧
      e = sleepTotal tr ∧ B ≤ e ∧ e < B + (H + D) := by
  have hfuel : B ≤ 0 + (B.toNat : Int) * (H + D) := by
    rw [Int.toNat_of_nonneg (by linarith)]
    nlinarith
  obtain ⟨tr, e, idx2, heq, he1, he2, he3, he4, he5⟩ :=
    perform_timed_aux_spec b B H D B.toNat 0 0 hfuel
  have hp : 1 ≤ pressCount tr := he5 (by linarith)
  refine ⟨tr, e, idx2, heq, hp, ?_, by simpa using he3, he1, ?_⟩
  · omega
  · rcases he2 with h | h
    · exfalso
      rw [h] at he1
      linarith
    · exact h

/-- Witness for C2 with budget 1, hold 2, delay 3 — a case where the budget is
smaller than one cycle. -/
theorem timed_run_profile_witness :
    ∃ tr e idx2,
      perform_timed_clicks allOk 272 1 2 3 0 = some (tr, e, idx2) ∧
      1 ≤ pressCount tr ∧ 1 ≤ releaseCount tr ∧
      e = sleepTotal tr ∧ 1 ≤ e ∧ e < 1 + (2 + 3) :=
  timed_run_profile 272 1 2 3 (by norm_num) (by norm_num) (by norm_num)

/-- C4: a logical press is exactly two low-level events in order — a key-class
event with the button code and value 1, then a `SYN_REPORT` synchronization
event with value 0 — and a logical release is the same pair with key value 0
(when the two underlying writes succeed). -/
theorem send_event_press_release_pairs (os : Os) (idx b : Nat)
    (h1 : os.writeEvOk idx = true) (h2 : os.writeEvOk (idx + 1) = true) :
    send_event os idx b 1 =
      ([Action.writeEvent ⟨EV_KEY, b, 1⟩,
        Action.writeEvent ⟨EV_SYN, SYN_REPORT, 0⟩], idx + 2) ∧
    send_event os idx b 0 =
      ([Action.writeEvent ⟨EV_KEY, b, 0⟩,
        Action.writeEvent ⟨EV_SYN, SYN_REPORT, 0⟩], idx + 2) := by
  constructor <;> simp [send_event, send_input_event, h1, h2]

/-- Witness for C4 under the all-success oracle at write index 0, left
button. -/
theorem send_event_press_release_pairs_witness :
    send_event allOk 0 272 1 =
      ([Action.writeEvent ⟨EV_KEY, 272, 1⟩,
        Action.writeEvent ⟨EV_SYN, SYN_REPORT, 0⟩], 0 + 2) ∧
    send_event allOk 0 272 0 =
      ([Action.writeEvent ⟨EV_KEY, 272, 0⟩,
        Action.writeEvent ⟨EV_SYN, SYN_REPORT, 0⟩], 0 + 2) :=
  send_event_press_release_pairs allOk 0 272 rfl rfl

theorem setup_fail_facts (os : Os)
    (hfail : os.openOk = false ∨ os.capOk = false ∨
      os.writeDevOk = false ∨ os.createOk = false) :
    (setup_uinput_device os).2 = false ∧
    (∀ e, Action.writeEvent e ∉ (setup_uinput_device os).1) ∧
    Action.logError ∈ (setup_uinput_device os).1 ∧
    ((Action.closeDev ∈ (setup_uinput_device os).1) ↔ os.openOk = true) := by
  rcases os with ⟨o, cap, wd, cr, wev⟩
  cases o <;> cases cap <;> cases wd <;> cases cr <;>
    simp_all [setup_uinput_device]

theorem printHelp_notin_send_input_event (os : Os) (idx ty c : Nat) (v : Int) :
    Action.printHelp ∉ (send_input_event os idx ty c v).1 := by
  unfold send_input_event
  split <;> simp

theorem printHelp_notin_send_event (os : Os) (idx b : Nat) (a : Int) :
    Action.printHelp ∉ (send_event os idx b a).1 := by
  unfold send_event
  simp [printHelp_notin_send_input_event]

theorem printHelp_notin_clicks (os : Os) (b : Nat) (h d : Int) :
    ∀ n idx, Action.printHelp ∉ (perform_clicks_aux os b h d n idx).1 := by
  intro n
  induction n with
  | zero => intro idx; simp [perform_clicks_aux]
  | succ m ih =>
    intro idx
    simp only [perform_clicks_aux]
    split <;> simp [printHelp_notin_send_event, ih]

theorem printHelp_notin_timed (os : Os) (b : Nat) (dur h sp : Int) :
    ∀ fuel (el : Int) idx tr (e : Int) i2,
      perform_timed_aux os b dur h sp fuel el idx = some (tr, e, i2) →
      Action.printHelp ∉ tr := by
  intro fuel
  induction fuel with
  | zero =>
    intro el idx tr e i2 heq
    simp only [perform_timed_aux] at heq
    split at heq
    · simp only [Option.some.injEq, Prod.mk.injEq] at heq
      rw [← heq.1]
      simp
    · exact absurd heq (by simp)
  | succ f ih =>
    intro el idx tr e i2 heq
    simp only [perform_timed_aux] at heq
    split at heq
    · simp only [Option.some.injEq, Prod.mk.injEq] at heq
      rw [← heq.1]
      simp
    · cases hrec : perform_timed_aux os b dur h sp f (el + h + sp)
          (send_event os (send_event os idx b 1).2 b 0).2 with
      | none => rw [hrec] at heq; exact absurd heq (by simp)
      | some res =>
        rcases res with ⟨tail, e3, i3⟩
        rw [hrec] at heq
        simp only [Option.some.injEq, Prod.mk.injEq] at heq
        rw [← heq.1]
        simp [printHelp_notin_send_event, ih _ _ _ _ _ hrec]

theorem printHelp_notin_setup (os : Os) :
    Action.printHelp ∉ (setup_uinput_device os).1 := by
  unfold setup_uinput_device
  split <;> [skip; split] <;> [skip; skip; split] <;>
    [skip; skip; skip; split] <;> simp

/-- C7: with no arguments, or with `-h`/`--help` as the first argument, the
program prints the usage text and exits with failure status; and no execution
path that prints the usage text exits with success. -/
theorem help_exits_failure :
    (∀ (os : Os) (argv : List String),
      (argv.length < 2 ∨ argv.getD 1 "" = "-h" ∨ argv.getD 1 "" = "--help") →
      mainRun os argv = some ([Action.printHelp], EXIT_FAILURE)) ∧
    (∀ (os : Os) (argv : List String) (tr : List Action) (code : Nat),
      mainRun os argv = some (tr, code) → Action.printHelp ∈ tr →
      code = EXIT_FAILURE) := by
  constructor
  · intro os argv h
    simp only [mainRun, parseInvocation, if_pos h]
  · intro os argv tr code hrun hmem
    unfold mainRun at hrun
    cases hp : parseInvocation argv <;> rw [hp] at hrun
    · simp only [Option.some.injEq, Prod.mk.injEq] at hrun
      exact hrun.2.symm
    · simp only [Option.some.injEq, Prod.mk.injEq] at hrun
      exact hrun.2.symm
    · exact absurd hrun (by simp)
    · simp only [Option.some.injEq, Prod.mk.injEq] at hrun
      exact hrun.2.symm
    · rename_i b c h sp d dbg
      simp only at hrun
      split at hrun
      · split at hrun
        · cases htc : perform_timed_clicks os b d h sp 0 with
          | none => rw [htc] at hrun; exact absurd hrun (by simp)
          | some res =>
            rcases res with ⟨tr2, e2, i2⟩
            rw [htc] at hrun
            simp only [Option.some.injEq, Prod.mk.injEq] at hrun
            exfalso
            rw [← hrun.1] at hmem
            simp only [List.mem_append, List.mem_cons] at hmem
            rcases hmem with (hm | hm) | hm
            · exact printHelp_notin_setup os hm
            · exact printHelp_notin_timed os b d h sp _ _ _ _ _ _ htc hm
            · simp at hm
        · simp only [Option.some.injEq, Prod.mk.injEq] at hrun
          exfalso
          rw [← hrun.1] at hmem
          simp only [List.mem_append, List.mem_cons] at hmem
          rcases hmem with (hm | hm) | hm
          · exact printHelp_notin_setup os hm
          · exact printHelp_notin_clicks os b h sp _ _ hm
          · simp at hm
      · simp only [Option.some.injEq, Prod.mk.injEq] at hrun
        exfalso
        rw [← hrun.1] at hmem
        exact printHelp_notin_setup os hmem

/-- Witness for C7: invoking with no arguments beyond the program name. -/
theorem help_exits_failure_witness :
    mainRun allOk ["mclick"] = some ([Action.printHelp], EXIT_FAILURE) :=
  help_exits_failure.1 allOk ["mclick"] (Or.inl (by norm_num))

/-- C5: when device-session acquisition fails at any step (open, capability
registration, descriptor write, or device creation), a run whose arguments
parsed to a click request reports a diagnostic and exits non-zero, never
attempts an event write, and closes the device handle exactly when the open
step had succeeded. -/
theorem setup_failure_aborts (os : Os) (argv : List String)
    (b : Nat) (c h sp d : Int) (dbg : Bool)
    (hfail : os.openOk = false ∨ os.capOk = false ∨
      os.writeDevOk = false ∨ os.createOk = false)
    (hparse : parseInvocation argv = FrontEnd.request b c h sp d dbg) :
    ∃ tr, mainRun os argv = some (tr, EXIT_FAILURE) ∧
      (∀ e, Action.writeEvent e ∉ tr) ∧
      Action.logError ∈ tr ∧
      ((Action.closeDev ∈ tr) ↔ os.openOk = true) := by
  have hs := setup_fail_facts os hfail
  refine ⟨(setup_uinput_device os).1, ?_, hs.2.1, hs.2.2.1, hs.2.2.2⟩
  simp [mainRun, hparse, hs.1]

/-- Witness for C5: the open step fails on the invocation `mclick l`. -/
theorem setup_failure_aborts_witness :
    ∃ tr, mainRun ⟨false, true, true, true, fun _ => true⟩ ["mclick", "l"] =
        some (tr, EXIT_FAILURE) ∧
      (∀ e, Action.writeEvent e ∉ tr) ∧
      Action.logError ∈ tr ∧
      ((Action.closeDev ∈ tr) ↔
        (⟨false, true, true, true, fun _ => true⟩ : Os).openOk = true) :=
  setup_failure_aborts ⟨false, true, true, true, fun _ => true⟩
    ["mclick", "l"] 272 1 120 120 0 false (Or.inl rfl) (by decide)

/-- C8: the trace of OS actions and the exit status are a function of the
parsed request alone — two invocations whose arguments parse identically
produce identical event sequences (the model already abstracts timestamps
away), so repeated invocation with identical arguments is idempotent in
shape. -/
theorem trace_function_of_request (os : Os) (argv1 argv2 : List String)
    (h : parseInvocation argv1 = parseInvocation argv2) :
    mainRun os argv1 = mainRun os argv2 := by
  unfold mainRun
  rw [h]

/-- Witness for C8: two invocations differing only in the program name parse
identically, hence run identically. -/
theorem trace_function_of_request_witness :
    mainRun allOk ["a", "l", "3"] = mainRun allOk ["b", "l", "3"] :=
  trace_function_of_request allOk ["a", "l", "3"] ["b", "l", "3"] (by decide)

/-- C10: `get_count` returns the `stoi` value of the first command-line
argument (scanning from `argv[0]` on) whose first character is a decimal
digit, and the default count 1 only when no argument starts with a digit;
consequently on `mclick l --hold 50` the digit-leading option value `50` is
also taken as the repetition count. -/
theorem get_count_first_digit_arg :
    (∀ (pre : List String) (a : String) (post : List String),
      (∀ s ∈ pre, isDigitChar (firstChar s) = false) →
      isDigitChar (firstChar a) = true →
      get_count (pre ++ a :: post) = stoi a) ∧
    (∀ argv : List String,
      (∀ s ∈ argv, isDigitChar (firstChar s) = false) →
      get_count argv = some DEFAULT_CLICK_COUNT) ∧
    parseInvocation ["mclick", "l", "--hold", "50"] =
      FrontEnd.request BTN_LEFT 50 50 120 0 false := by
  refine ⟨?_, ?_, by decide⟩
  · intro pre a post hpre ha
    unfold get_count
    have hfind : (pre ++ a :: post).find?
        (fun s => isDigitChar (firstChar s)) = some a := by
      induction pre with
      | nil => simp [List.find?_cons, ha]
      | cons x xs ih =>
        have hx : isDigitChar (firstChar x) = false := hpre x (by simp)
        simp only [List.cons_append, List.find?_cons, hx]
        exact ih fun s hs => hpre s (by simp [hs])
    rw [hfind]
  · intro argv hall
    unfold get_count
    have hfind : argv.find? (fun s => isDigitChar (firstChar s)) = none := by
      rw [List.find?_eq_none]
      intro x hx
      simp [hall x hx]
    rw [hfind]

/-- Witness for C10: on `mclick l --hold 50` the count is read from the hold
value. -/
theorem get_count_first_digit_arg_witness :
    get_count (["mclick", "l", "--hold"] ++ "50" :: []) = stoi "50" :=
  get_count_first_digit_arg.1 ["mclick", "l", "--hold"] "50" []
    (by decide) (by decide)

/-- C9 counterexample: `"5sx"` is a positive integer followed by the non-empty
suffix `"sx"`, which differs from `"s"`, yet `parse_duration` applies the
seconds conversion and returns 5000, not the numeric prefix 5. -/
theorem parse_duration_suffix_counterexample :
    parse_duration "5sx" = some 5000 ∧ ¬ ((5000 : Int) = 5) := by
  constructor
  · decide
  · decide

theorem findIdx?_digits_append (ds suf : List Char)
    (hds : ∀ c ∈ ds, isDigitChar c = true) (hsuf : suf ≠ [])
    (hhead : isDigitChar (suf.headD (Char.ofNat 0)) = false) :
    ∀ i, List.findIdx? (fun c => !isDigitChar c) (ds ++ suf) i =
      some (i + ds.length) := by
  induction ds with
  | nil =>
    intro i
    obtain ⟨c, cs, rfl⟩ := List.exists_cons_of_ne_nil hsuf
    simp only [List.headD_cons] at hhead
    simp [List.findIdx?_cons, hhead]
  | cons x xs ih =>
    intro i
    have hx : isDigitChar x = true := hds x (by simp)
    simp only [List.cons_append, List.findIdx?_cons, hx, Bool.not_true,
      if_neg (by simp : ¬ (false = true))]
    rw [ih (fun c hc => hds c (by simp [hc])) (i + 1)]
    simp only [List.length_cons]
    exact congrArg some (by omega)

/-- C9 amended: for a duration string made of a (possibly empty) run of digits
followed by a non-empty suffix whose first character is not a digit, if the
string `stoi`-parses to a positive value `v` then `parse_duration` accepts it,
returning `v * 1000` whenever the suffix merely *starts* with `'s'` (whatever
follows), and `v` otherwise; only the first character of the suffix is ever
inspected. -/
theorem parse_duration_suffix_amended (ds suf : List Char) (v : Int)
    (hds : ∀ c ∈ ds, isDigitChar c = true)
    (hsuf : suf ≠ [])
    (hhead : isDigitChar (suf.headD (Char.ofNat 0)) = false)
    (hstoi : stoi (String.mk (ds ++ suf)) = some v)
    (hpos : 0 < v) :
    parse_duration (String.mk (ds ++ suf)) =
      some (if suf.headD (Char.ofNat 0) = 's' then v * 1000 else v) := by
  simp only [parse_duration, hstoi]
  rw [if_neg (by omega : ¬ v ≤ 0)]
  have hidx : List.findIdx? (fun c => !isDigitChar c)
      (String.mk (ds ++ suf)).data = some ds.length := by
    show List.findIdx? (fun c => !isDigitChar c) (ds ++ suf) 0 = some ds.length
    rw [findIdx?_digits_append ds suf hds hsuf hhead 0, Nat.zero_add]
  rw [hidx]
  have hget : (ds ++ suf).getD ds.length ' ' = suf.headD (Char.ofNat 0) := by
    obtain ⟨c, cs, rfl⟩ := List.exists_cons_of_ne_nil hsuf
    rw [List.getD_append_right ds (c :: cs) ' ' ds.length (le_refl _)]
    simp
  simp only []
  rw [hget]
  split <;> rfl

/-- Witness for C9's amended claim: `"5x"` parses to 5 milliseconds. -/
theorem parse_duration_suffix_amended_witness :
    parse_duration (String.mk (['5'] ++ ['x'])) =
      some (if ['x'].headD (Char.ofNat 0) = 's' then 5 * 1000 else 5) :=
  parse_duration_suffix_amended ['5'] ['x'] 5 (by decide) (by decide)
    (by decide) (by decide) (by decide)

theorem isSpaceByte_of_digit (c : Char) (h : isDigitChar c = true) :
    isSpaceByte c = false := by
  simp [isDigitChar] at h
  simp [isSpaceByte]
  omega

theorem stoiBody_digit_head (s : String)
    (h : isDigitChar (firstChar s) = true) :
    ∃ ds, stoiBody s = some (false, ds) := by
  cases hs : s.data with
  | nil =>
    rw [firstChar, hs] at h
    exact absurd h (by decide)
  | cons c t =>
    have hc : isDigitChar c = true := by
      rw [firstChar, hs] at h
      simpa using h
    have hminus : ¬ c = '-' := by
      intro h2
      subst h2
      exact absurd hc (by decide)
    have hplus : ¬ c = '+' := by
      intro h2
      subst h2
      exact absurd hc (by decide)
    unfold stoiBody
    rw [hs, List.dropWhile_cons, isSpaceByte_of_digit c hc]
    simp only [Bool.false_eq_true, if_false, if_neg hminus, if_neg hplus]
    rw [List.takeWhile_cons, hc]
    simp

theorem stoiBody_none_head (s : String) (h : stoiBody s = none) :
    isDigitChar (firstChar s) = false := by
  cases hd : isDigitChar (firstChar s)
  · rfl
  · obtain ⟨ds, hb⟩ := stoiBody_digit_head s hd
    rw [hb] at h
    cases h

theorem parse_duration_bad_none (s : String)
    (hbad : stoiBody s = none ∨ ∃ v, stoi s = some v ∧ v ≤ 0) :
    parse_duration s = none := by
  rcases hbad with hb | ⟨v, hv, hle⟩
  · have : stoi s = none := by unfold stoi; rw [hb]
    simp [parse_duration, this]
  · simp [parse_duration, hv, if_pos hle]

theorem get_count_bad (flag s : String)
    (hfh : isDigitChar (firstChar flag) = false)
    (hbad : stoiBody s = none ∨ ∃ v, stoi s = some v ∧ v ≤ 0) :
    ∃ w, get_count ["mclick", "l", flag, s] = some w := by
  cases hd : isDigitChar (firstChar s)
  · refine ⟨DEFAULT_CLICK_COUNT, ?_⟩
    unfold get_count
    rw [show List.find? (fun a => isDigitChar (firstChar a))
        ["mclick", "l", flag, s] = none from ?_]
    · rw [List.find?_eq_none]
      intro x hx
      simp only [List.mem_cons, List.mem_singleton] at hx
      rcases hx with rfl | rfl | rfl | rfl | h
      · decide
      · decide
      · simp [hfh]
      · simp [hd]
      · cases h
  · rcases hbad with hb | ⟨v, hv, _⟩
    · rw [stoiBody_none_head s hb] at hd
      cases hd
    · refine ⟨v, ?_⟩
      unfold get_count
      rw [show List.find? (fun a => isDigitChar (firstChar a))
          ["mclick", "l", flag, s] = some s from ?_]
      · exact hv
      · simp [List.find?_cons, hd, hfh,
          show isDigitChar (firstChar "mclick") = false from rfl,
          show isDigitChar (firstChar "l") = false from rfl]

/-- C6: a duration option whose value is zero, negative, or non-numeric (no
digits where `stoi` looks for them) makes the program print a diagnostic and
exit with failure before any device interaction: the resulting trace is just
the error log — the device is never opened and no event is emitted. -/
theorem invalid_duration_rejected (os : Os) (flag s : String)
    (hflag : flag = "-h" ∨ flag = "--hold" ∨ flag = "-cs" ∨
      flag = "--clickspeed" ∨ flag = "-t" ∨ flag = "--time")
    (hbad : stoiBody s = none ∨ ∃ v, stoi s = some v ∧ v ≤ 0) :
    mainRun os ["mclick", "l", flag, s] =
      some ([Action.logError], EXIT_FAILURE) := by
  have hfh : isDigitChar (firstChar flag) = false := by
    rcases hflag with rfl | rfl | rfl | rfl | rfl | rfl <;> decide
  have hpd : parse_duration s = none := parse_duration_bad_none s hbad
  obtain ⟨w, hw⟩ := get_count_bad flag s hfh hbad
  have hparse : parseInvocation ["mclick", "l", flag, s] =
      FrontEnd.badDuration := by
    rcases hflag with rfl | rfl | rfl | rfl | rfl | rfl <;>
      simp [parseInvocation, hw, optionLoop, get_duration, hpd, BUTTONS,
        firstChar]
  simp [mainRun, hparse]

/-- Witness for C6: `mclick l -h 0` — a zero hold duration — fails before the
device is touched. -/
theorem invalid_duration_rejected_witness :
    mainRun allOk ["mclick", "l", "-h", "0"] =
      some ([Action.logError], EXIT_FAILURE) :=
  invalid_duration_rejected allOk "-h" "0" (Or.inl rfl)
    (Or.inr ⟨0, by decide, by decide⟩)

theorem send_input_event_shape (os : Os) (idx ty c : Nat) (v : Int) :
    (send_input_event os idx ty c v).1.length = 1 ∧
    (send_input_event os idx ty c v).2 = idx + 1 := by
  unfold send_input_event
  split <;> simp

theorem send_event_shape (os : Os) (idx b : Nat) (a : Int) :
    (send_event os idx b a).1.length = 2 ∧
    (send_event os idx b a).2 = idx + 2 := by
  obtain ⟨h1, h2⟩ := send_input_event_shape os idx EV_KEY b a
  obtain ⟨h3, h4⟩ := send_input_event_shape os
    (send_input_event os idx EV_KEY b a).2 EV_SYN SYN_REPORT 0
  simp only [send_event]
  constructor
  · rw [List.length_append, h1, h3]
  · rw [h4, h2]

theorem send_event_idx4 (os : Os) (idx b : Nat) :
    (send_event os (send_event os idx b 1).2 b 0).2 = idx + 4 := by
  rw [(send_event_shape os (send_event os idx b 1).2 b 0).2,
    (send_event_shape os idx b 1).2]

theorem perform_clicks_aux_indep (os1 os2 : Os) (b : Nat) (h d : Int) :
    ∀ n idx,
      (perform_clicks_aux os1 b h d n idx).1.length =
        (perform_clicks_aux os2 b h d n idx).1.length ∧
      (perform_clicks_aux os1 b h d n idx).2 =
        (perform_clicks_aux os2 b h d n idx).2 := by
  intro n
  induction n with
  | zero => intro idx; simp [perform_clicks_aux]
  | succ m ih =>
    intro idx
    simp only [perform_clicks_aux, send_event_idx4]
    obtain ⟨ihl, ihi⟩ := ih (idx + 4)
    by_cases hm : 0 < m
    · simp only [if_pos hm]
      refine ⟨?_, ihi⟩
      simp only [List.length_append, List.length_cons,
        (send_event_shape os1 idx b 1).1, (send_event_shape os2 idx b 1).1,
        (send_event_shape os1 (send_event os1 idx b 1).2 b 0).1,
        (send_event_shape os2 (send_event os2 idx b 1).2 b 0).1, ihl]
    · simp only [if_neg hm]
      refine ⟨?_, ihi⟩
      simp only [List.length_append, List.length_cons,
        (send_event_shape os1 idx b 1).1, (send_event_shape os2 idx b 1).1,
        (send_event_shape os1 (send_event os1 idx b 1).2 b 0).1,
        (send_event_shape os2 (send_event os2 idx b 1).2 b 0).1, ihl]

theorem perform_timed_aux_indep (os1 os2 : Os) (b : Nat) (dur h sp : Int) :
    ∀ fuel (el : Int) idx,
      (perform_timed_aux os1 b dur h sp fuel el idx = none ∧
       perform_timed_aux os2 b dur h sp fuel el idx = none) ∨
      (∃ t1 t2 e i1 i2,
        perform_timed_aux os1 b dur h sp fuel el idx = some (t1, e, i1) ∧
        perform_timed_aux os2 b dur h sp fuel el idx = some (t2, e, i2) ∧
        t1.length = t2.length ∧ i1 = i2) := by
  intro fuel
  induction fuel with
  | zero =>
    intro el idx
    by_cases hd : dur ≤ el
    · exact Or.inr ⟨[], [], el, idx, idx,
        by simp [perform_timed_aux, if_pos hd],
        by simp [perform_timed_aux, if_pos hd], rfl, rfl⟩
    · exact Or.inl ⟨by simp [perform_timed_aux, if_neg hd],
        by simp [perform_timed_aux, if_neg hd]⟩
  | succ f ih =>
    intro el idx
    by_cases hd : dur ≤ el
    · exact Or.inr ⟨[], [], el, idx, idx,
        by simp [perform_timed_aux, if_pos hd],
        by simp [perform_timed_aux, if_pos hd], rfl, rfl⟩
    · rcases ih (el + h + sp) (idx + 4) with ⟨hn1, hn2⟩ |
        ⟨t1, t2, e, i1, i2, hs1, hs2, hlen, hidx⟩
      · refine Or.inl ⟨?_, ?_⟩
        · simp only [perform_timed_aux, if_neg hd, send_event_idx4, hn1]
        · simp only [perform_timed_aux, if_neg hd, send_event_idx4, hn2]
      · refine Or.inr ⟨(send_event os1 idx b 1).1 ++ Action.sleep h ::
            (send_event os1 (send_event os1 idx b 1).2 b 0).1 ++
            Action.sleep sp :: t1,
          (send_event os2 idx b 1).1 ++ Action.sleep h ::
            (send_event os2 (send_event os2 idx b 1).2 b 0).1 ++
            Action.sleep sp :: t2, e, i1, i2, ?_, ?_, ?_, hidx⟩
        · simp only [perform_timed_aux, if_neg hd, send_event_idx4, hs1]
        · simp only [perform_timed_aux, if_neg hd, send_event_idx4, hs2]
        · simp only [List.length_append, List.length_cons,
            (send_event_shape os1 idx b 1).1, (send_event_shape os2 idx b 1).1,
            (send_event_shape os1 (send_event os1 idx b 1).2 b 0).1,
            (send_event_shape os2 (send_event os2 idx b 1).2 b 0).1, hlen]

theorem setup_withWrites (os : Os) (f : Nat → Bool) :
    setup_uinput_device (withWrites os f) = setup_uinput_device os := rfl

theorem mainRun_shape_write_indep (os : Os) (f g : Nat → Bool)
    (argv : List String) :
    (mainRun (withWrites os f) argv).map (fun r => (r.1.length, r.2)) =
    (mainRun (withWrites os g) argv).map (fun r => (r.1.length, r.2)) := by
  unfold mainRun
  cases hp : parseInvocation argv
  · rfl
  · rfl
  · rfl
  · rfl
  · rename_i b c h sp d dbg
    simp only [setup_withWrites]
    by_cases hst : (setup_uinput_device os).2
    · simp only [if_pos hst]
      by_cases hdur : 0 < d
      · simp only [if_pos hdur]
        unfold perform_timed_clicks
        rcases perform_timed_aux_indep (withWrites os f) (withWrites os g)
            b d h sp d.toNat 0 0 with ⟨hn1, hn2⟩ |
          ⟨t1, t2, e, i1, i2, hs1, hs2, hlen, hidx⟩
        · rw [hn1, hn2]
        · rw [hs1, hs2]
          simp [hlen]
      · simp only [if_neg hdur]
        obtain ⟨hlen, hidx⟩ := perform_clicks_aux_indep (withWrites os f)
          (withWrites os g) b h sp c.toNat 0
        simp only [perform_clicks]
        simp [hlen]
    · simp only [if_neg hst]

/-- C3 counterexample: under an oracle that fails exactly the first event
write — the first cycle's key-class press — the run `mclick l 2` still logs
the failure, goes on to emit 1 press and 2 releases, and exits with
`EXIT_SUCCESS`: the failed key write neither stops the loop nor makes the
process exit non-zero. -/
theorem emit_failure_abort_counterexample :
    (mainRun ⟨true, true, true, true, fun n => decide (n ≠ 0)⟩
        ["mclick", "l", "2"]).map
      (fun r => (r.1.contains Action.logError, pressCount r.1,
        releaseCount r.1, r.2)) =
      some (true, 1, 2, EXIT_SUCCESS) := by
  decide

/-- C3 amended: a failed write of any event (key-class included) is logged and
the loop continues unchanged — the trace length and the exit status of a run
are independent of which event writes fail, and concretely a `mclick l 2` run
whose first key write fails still performs both cycles, logs the failure, and
exits with success. -/
theorem emit_failure_logged_loop_continues :
    (∀ (os : Os) (f g : Nat → Bool) (argv : List String),
      (mainRun (withWrites os f) argv).map (fun r => (r.1.length, r.2)) =
      (mainRun (withWrites os g) argv).map (fun r => (r.1.length, r.2))) ∧
    mainRun ⟨true, true, true, true, fun n => decide (n ≠ 0)⟩
        ["mclick", "l", "2"] =
      some ([Action.openDev, Action.setCapability, Action.writeDeviceInfo,
        Action.createDev, Action.logError,
        Action.writeEvent ⟨EV_SYN, SYN_REPORT, 0⟩, Action.sleep 120,
        Action.writeEvent ⟨EV_KEY, BTN_LEFT, 0⟩,
        Action.writeEvent ⟨EV_SYN, SYN_REPORT, 0⟩, Action.sleep 120,
        Action.writeEvent ⟨EV_KEY, BTN_LEFT, 1⟩,
        Action.writeEvent ⟨EV_SYN, SYN_REPORT, 0⟩, Action.sleep 120,
        Action.writeEvent ⟨EV_KEY, BTN_LEFT, 0⟩,
        Action.writeEvent ⟨EV_SYN, SYN_REPORT, 0⟩,
        Action.closeDev], EXIT_SUCCESS) :=
  ⟨fun os f g argv => mainRun_shape_write_indep os f g argv, by decide⟩

end Mclick
